import Mathlib

/-
Verification of the nand2oop chip-graph evaluation engine.

The definitions below are a shallow embedding of the Rust sources:
  * src/hdl/src/lib.rs        — the evaluation engine (Input, Nand, ChipInput,
                                ChipOutput, ChipOutputWrapper, Machine),
  * src/project/src/main.rs   — the composed chips (not/and/or/xor/mux/demux,
                                halfadder/fulladder/adder16/incrementer16, srlatch),
  * src/hdl-macro/src/lib.rs  — the StructuredData derive (from_flat/to_flat)
                                and the ChipInput/ChipOutput wiring inserted by
                                the per-chip macro boilerplate.

Rust references between arena-allocated nodes are modelled with indices into
per-node-kind lists (one list per node kind), exactly the arena-of-structs
representation the spec itself suggests.  The mutable (tick, value) cache
cells of Nand and ChipOutput nodes, and the mutable UserInput cells, live in
an explicit EvalState that the evaluation threads through.  The `u8` tick
counter is a Nat kept below 256 with explicit `% 256` where the Rust `u8`
arithmetic would wrap.  Recursive evaluation of the (possibly cyclic) node
graph is expressed with an explicit fuel parameter; `.noFuel` for every fuel
bound n means the Rust recursion never terminates.
-/

set_option maxHeartbeats 1000000
set_option maxRecDepth 10000

namespace Nand2

/-- Wire source variants, from `enum Input` in src/hdl/src/lib.rs.  Each
constructor carries the index of the referenced node in its arena list.
`chipOutput o` models `Input::ChipOutput(&ChipOutputWrapper)`: the wrapper
only pairs the inner ChipOutput with its owning chip (used for diagramming),
so the index is the index of the inner ChipOutput node. -/
inductive Input where
  | userInput (u : Nat)
  | chipOutput (o : Nat)
  | chipInput (c : Nat)
  | nandInput (n : Nat)
deriving DecidableEq, Repr

/-- Source variants a ChipOutput can wrap, from `enum ChipOutputType` in
src/hdl/src/lib.rs. -/
inductive ChipOutputType where
  | chipOutput (o : Nat)
  | nandOutput (n : Nat)
  | chipInput (c : Nat)
deriving DecidableEq, Repr

/-- The arena owning all nodes of one circuit (bumpalo `Bump` plus the node
structs allocated into it).  `userInit` holds the initial value of each
UserInput cell (`UserInput::from(alloc, val)`; `UserInput::new` uses false).
A `none` entry in `chipOutputs`/`nands` models a late-bound slot that has
been pre-allocated but not yet bound (spec section 4.5); in the eager
constructors of src/hdl the slot is always `some`. -/
structure Arena where
  userInit : List Bool
  chipInputs : List Input
  chipOutputs : List (Option ChipOutputType)
  nands : List (Option (Input × Input))
deriving DecidableEq, Repr

/-- The mutable cells of the circuit: the UserInput value cells, and the
(iteration, value) cache pair carried by every ChipOutput and Nand node
(`iteration: Cell<u8>, value: Cell<bool>`). -/
structure EvalState where
  userVals : List Bool
  outIter : List Nat
  outVal : List Bool
  nandIter : List Nat
  nandVal : List Bool
deriving DecidableEq, Repr

/-- List lookup, modelling dereferencing an arena index. -/
def lget {α : Type} : List α → Nat → Option α
  | [], _ => none
  | x :: _, 0 => some x
  | _ :: xs, n + 1 => lget xs n

/-- List update, modelling a `Cell::set` on the node at the given index. -/
def lset {α : Type} : List α → Nat → α → List α
  | [], _, _ => []
  | _ :: xs, 0, v => v :: xs
  | x :: xs, n + 1, v => x :: lset xs n v

/-- State of the cells right after construction: every Nand and ChipOutput
is created with `iteration: Cell::new(0), value: Cell::new(false)`
(src/hdl/src/lib.rs, ChipOutput::new and Nand::new); UserInput cells hold
their construction-time values. -/
def initState (a : Arena) : EvalState :=
  { userVals := a.userInit
    outIter := List.replicate a.chipOutputs.length 0
    outVal := List.replicate a.chipOutputs.length false
    nandIter := List.replicate a.nands.length 0
    nandVal := List.replicate a.nands.length false }

/-- Result of one `process(iteration)` call on a node: a value plus the cells
after the call, an "unbound source" construction error (the Rust code would
panic / could not have been constructed), or fuel exhaustion — `.noFuel` for
every fuel bound means the Rust recursion diverges. -/
inductive EvalRes where
  | ok (v : Bool) (st : EvalState)
  | unbound
  | noFuel
deriving DecidableEq, Repr

/-- Sequencing of node evaluations: errors propagate. -/
def withOk (r : EvalRes) (f : Bool → EvalState → EvalRes) : EvalRes :=
  match r with
  | .ok v st => f v st
  | .unbound => .unbound
  | .noFuel => .noFuel

/-- Which node's `process` is being invoked. -/
inductive Target where
  | inp (i : Input)
  | cin (c : Nat)
  | out (o : Nat)
  | nand (n : Nat)
deriving DecidableEq, Repr

/-- The memoized evaluation protocol, transcribed from src/hdl/src/lib.rs:
`Input::process` (match and forward; a UserInput returns its cell),
`ChipInput::process` (forward to the bound input),
`ChipOutput::process` (lines 548-560) and `Nand::process` (lines 640-650).
Both memoized nodes first compare the stored iteration stamp with the tick
and return the cached value on equality; otherwise they recurse into their
source(s), compute the result, and only then set `iteration` and `value`. -/
def eval (a : Arena) : Nat → Target → Nat → EvalState → EvalRes
  | 0, _, _, _ => .noFuel
  | fuel + 1, t, tick, st =>
    match t with
    | .inp i =>
      match i with
      | .userInput u =>
        match lget st.userVals u with
        | some v => .ok v st
        | none => .unbound
      | .chipOutput o => eval a fuel (.out o) tick st
      | .chipInput c => eval a fuel (.cin c) tick st
      | .nandInput n => eval a fuel (.nand n) tick st
    | .cin c =>
      match lget a.chipInputs c with
      | some i => eval a fuel (.inp i) tick st
      | none => .unbound
    | .out o =>
      match lget st.outIter o, lget st.outVal o with
      | some it, some v =>
        if it = tick then .ok v st
        else
          match lget a.chipOutputs o with
          | some (some src) =>
            let r :=
              match src with
              | .chipOutput o2 => eval a fuel (.out o2) tick st
              | .nandOutput n => eval a fuel (.nand n) tick st
              | .chipInput c => eval a fuel (.cin c) tick st
            withOk r (fun res st1 =>
              .ok res { st1 with outIter := lset st1.outIter o tick
                                 outVal := lset st1.outVal o res })
          | _ => .unbound
      | _, _ => .unbound
    | .nand n =>
      match lget st.nandIter n, lget st.nandVal n with
      | some it, some v =>
        if tick = it then .ok v st
        else
          match lget a.nands n with
          | some (some p) =>
            withOk (eval a fuel (.inp p.1) tick st) (fun v1 st1 =>
              withOk (eval a fuel (.inp p.2) tick st1) (fun v2 st2 =>
                .ok (!(v1 && v2))
                  { st2 with nandIter := lset st2.nandIter n tick
                             nandVal := lset st2.nandVal n (!(v1 && v2)) }))
          | _ => .unbound
      | _, _ => .unbound

/-- The top-level driver, from `struct Machine` (src/hdl/src/lib.rs lines
306-310): the machine owns its UserInput cells (`inputs`), the ChipOutput
node behind each `Output` (`outputs`), and the `u8` tick counter
(`iteration`), plus — in this explicit-state embedding — the cells of its
circuit. -/
structure Machine where
  arena : Arena
  inputs : List Nat
  outputs : List Nat
  iteration : Nat
  st : EvalState
deriving Repr

/-- Writing the supplied booleans into the machine's UserInput cells:
`for (in_, val) in self.inputs.iter().zip(input_vals) { in_.set(val) }`. -/
def writeVals (cur : List Bool) (idxs : List Nat) (vals : List Bool) : List Bool :=
  (idxs.zip vals).foldl (fun acc p => lset acc p.1 p.2) cur

/-- Sequencing an output evaluation into the rest of a `process` call: a
non-ok node evaluation means the whole call panics or diverges. -/
def okThen {X : Type} (r : EvalRes) (f : Bool → EvalState → Option X) : Option X :=
  match r with
  | .ok v st => f v st
  | _ => none

/-- Evaluating every machine output in order at the given tick
(`out.output.process(self.iteration)` for each output; the wrapper forwards
to its inner ChipOutput). -/
def evalOuts (a : Arena) (fuel tick : Nat) : List Nat → EvalState → Option (List Bool × EvalState)
  | [], st => some ([], st)
  | o :: os, st =>
    okThen (eval a fuel (.out o) tick st) (fun v st1 =>
      (evalOuts a fuel tick os st1).map (fun p => (v :: p.1, p.2)))

/-- The tick used by the next `process` call: `self.iteration += 1` on a
`u8`, i.e. an increment that wraps modulo 2^8. -/
def Machine.nextTick (m : Machine) : Nat := (m.iteration + 1) % 256

/-- `Machine::process` (src/hdl/src/lib.rs lines 333-343): write the inputs,
increment the tick by one (u8, wrapping), evaluate every output at the new
tick, return the outputs.  `none` models a call that panics or diverges. -/
def Machine.process (m : Machine) (vals : List Bool) (fuel : Nat) : Option (List Bool × Machine) :=
  (evalOuts m.arena fuel m.nextTick m.outputs
      { m.st with userVals := writeVals m.st.userVals m.inputs vals }).map
    (fun p => (p.1, { m with iteration := m.nextTick, st := p.2 }))

/-- `Machine::new` (src/hdl/src/lib.rs lines 313-326): allocate NINPUT fresh
UserInput cells (initial value false), hand them to the top-level chip
constructor, capture the constructed outputs, start the tick counter at 0. -/
def Machine.new (nin : Nat) (build : Arena → List Input → Arena × List Nat) : Machine :=
  let a0 : Arena :=
    { userInit := List.replicate nin false, chipInputs := [], chipOutputs := [], nands := [] }
  let p := build a0 ((List.range nin).map Input.userInput)
  { arena := p.1, inputs := List.range nin, outputs := p.2, iteration := 0, st := initState p.1 }

/-- Repeated `process` calls with the same input values, collecting the
output of every call. -/
def runN (vals : List Bool) (fuel : Nat) : Nat → Machine → Option (List (List Bool) × Machine)
  | 0, m => some ([], m)
  | n + 1, m =>
    match m.process vals fuel with
    | some p => (runN vals fuel n p.2).map (fun q => (p.1 :: q.1, q.2))
    | none => none

/-! ### Arena constructors

Each constructor appends a node to its arena list and returns the new node's
index, modelling the corresponding `X::new(alloc, ...)` from src/hdl. -/

/-- `UserInput::from(alloc, val)` (`UserInput::new` passes false). -/
def mkUserInput (a : Arena) (val : Bool) : Arena × Nat :=
  ({ a with userInit := a.userInit ++ [val] }, a.userInit.length)

/-- `ChipInput::new(alloc, in_)`. -/
def mkChipInput (a : Arena) (i : Input) : Arena × Nat :=
  ({ a with chipInputs := a.chipInputs ++ [i] }, a.chipInputs.length)

/-- `ChipOutput::new(alloc, out)` — eagerly bound source. -/
def mkChipOutput (a : Arena) (src : ChipOutputType) : Arena × Nat :=
  ({ a with chipOutputs := a.chipOutputs ++ [some src] }, a.chipOutputs.length)

/-- `Nand::new(alloc, in1, in2)` — eagerly bound inputs. -/
def mkNand (a : Arena) (i1 i2 : Input) : Arena × Nat :=
  ({ a with nands := a.nands ++ [some (i1, i2)] }, a.nands.length)

/-- Modelled from the spec: the late-bound (default-then-bind) constructor
for a Nand used by `create_subchip` — `DefaultChip::new` allocates the node
with its two input slots still unbound (spec section 4.5).  Its definition
is not under src/ (src/project/src/main.rs only calls it through
`create_subchip`). -/
def mkNandEmpty (a : Arena) : Arena × Nat :=
  ({ a with nands := a.nands ++ [none] }, a.nands.length)

/-- Modelled from the spec: `set_inputs` of the late-bound protocol — binds
the pre-allocated Nand's two input slots exactly once (spec section 4.5).
Its definition is not under src/. -/
def nandSetInputs (a : Arena) (n : Nat) (i1 i2 : Input) : Arena :=
  { a with nands := a.nands.set n (some (i1, i2)) }

/-! ### Composed chips, from src/project/src/main.rs

Each `#[chip] fn foo` becomes a builder returning the index of each output
ChipOutput node.  Following the macro boilerplate in src/hdl-macro/src/lib.rs,
every declared argument is wrapped in a fresh ChipInput node and every output
of the chip body is wrapped in a fresh ChipOutput node; a nested chip's
output is consumed as `Input::ChipOutput` (through its wrapper). -/

/-- `not`: one NAND with both inputs tied together. -/
def mkNot (a : Arena) (i : Input) : Arena × Nat :=
  let c := mkChipInput a i
  let nd := mkNand c.1 (.chipInput c.2) (.chipInput c.2)
  mkChipOutput nd.1 (.nandOutput nd.2)

/-- `and`: NAND followed by a nested Not chip. -/
def mkAnd (a : Arena) (i1 i2 : Input) : Arena × Nat :=
  let c1 := mkChipInput a i1
  let c2 := mkChipInput c1.1 i2
  let nd := mkNand c2.1 (.chipInput c1.2) (.chipInput c2.2)
  let nt := mkNot nd.1 (.nandInput nd.2)
  mkChipOutput nt.1 (.chipOutput nt.2)

/-- `or`: NAND of the two negated inputs. -/
def mkOr (a : Arena) (i1 i2 : Input) : Arena × Nat :=
  let c1 := mkChipInput a i1
  let c2 := mkChipInput c1.1 i2
  let n1 := mkNot c2.1 (.chipInput c1.2)
  let n2 := mkNot n1.1 (.chipInput c2.2)
  let nd := mkNand n2.1 (.chipOutput n1.2) (.chipOutput n2.2)
  mkChipOutput nd.1 (.nandOutput nd.2)

/-- `xor`: and2(not(and(a,b)), or(a,b)). -/
def mkXor (a : Arena) (i1 i2 : Input) : Arena × Nat :=
  let c1 := mkChipInput a i1
  let c2 := mkChipInput c1.1 i2
  let an := mkAnd c2.1 (.chipInput c1.2) (.chipInput c2.2)
  let nt := mkNot an.1 (.chipOutput an.2)
  let orr := mkOr nt.1 (.chipInput c1.2) (.chipInput c2.2)
  let an2 := mkAnd orr.1 (.chipOutput nt.2) (.chipOutput orr.2)
  mkChipOutput an2.1 (.chipOutput an2.2)

/-- `mux`: or(and(in2,sel), and(in1,not sel)). -/
def mkMux (a : Arena) (i1 i2 isel : Input) : Arena × Nat :=
  let c1 := mkChipInput a i1
  let c2 := mkChipInput c1.1 i2
  let cs := mkChipInput c2.1 isel
  let a1 := mkAnd cs.1 (.chipInput c2.2) (.chipInput cs.2)
  let nt := mkNot a1.1 (.chipInput cs.2)
  let a2 := mkAnd nt.1 (.chipInput c1.2) (.chipOutput nt.2)
  let orr := mkOr a2.1 (.chipOutput a1.2) (.chipOutput a2.2)
  mkChipOutput orr.1 (.chipOutput orr.2)

/-- `demux`: out1 = and(in, not sel), out2 = and(in, sel). -/
def mkDemux (a : Arena) (iIn isel : Input) : Arena × (Nat × Nat) :=
  let ci := mkChipInput a iIn
  let cs := mkChipInput ci.1 isel
  let a1 := mkAnd cs.1 (.chipInput ci.2) (.chipInput cs.2)
  let nt := mkNot a1.1 (.chipInput cs.2)
  let a2 := mkAnd nt.1 (.chipInput ci.2) (.chipOutput nt.2)
  let o1 := mkChipOutput a2.1 (.chipOutput a2.2)
  let o2 := mkChipOutput o1.1 (.chipOutput a1.2)
  (o2.1, (o1.2, o2.2))

/-- `srlatch` (src/project/src/main.rs lines 512-534): two cross-coupled
NANDs built with `create_subchip`.  `create_subchip` itself and the Nand
late-bound slots are modelled from the spec (section 4.5: allocate both
chips empty, then bind each one's inputs with a reference to the other's
output); their definitions are not under src/. -/
def mkSrlatch (a : Arena) (s r : Input) : Arena × (Nat × Nat) :=
  let cs := mkChipInput a s
  let cr := mkChipInput cs.1 r
  let n1 := mkNandEmpty cr.1
  let n2 := mkNandEmpty n1.1
  let a1 := nandSetInputs n2.1 n1.2 (.chipInput cs.2) (.nandInput n2.2)
  let a2 := nandSetInputs a1 n2.2 (.chipInput cr.2) (.nandInput n1.2)
  let oq := mkChipOutput a2 (.nandOutput n1.2)
  let onq := mkChipOutput oq.1 (.nandOutput n2.2)
  (onq.1, (oq.2, onq.2))

/-- A minimal pass-through chip: one ChipInput forwarded by one ChipOutput
(the `ChipOutputType::ChipInput` variant of src/hdl). -/
def mkPass (a : Arena) (i : Input) : Arena × Nat :=
  let c := mkChipInput a i
  mkChipOutput c.1 (.chipInput c.2)

/-! ### Concrete machines used by the theorems -/

def notMachine : Machine :=
  Machine.new 1 (fun a ins => let p := mkNot a (ins.getD 0 (.userInput 0)); (p.1, [p.2]))

def andMachine : Machine :=
  Machine.new 2 (fun a ins =>
    let p := mkAnd a (ins.getD 0 (.userInput 0)) (ins.getD 1 (.userInput 0)); (p.1, [p.2]))

def orMachine : Machine :=
  Machine.new 2 (fun a ins =>
    let p := mkOr a (ins.getD 0 (.userInput 0)) (ins.getD 1 (.userInput 0)); (p.1, [p.2]))

def xorMachine : Machine :=
  Machine.new 2 (fun a ins =>
    let p := mkXor a (ins.getD 0 (.userInput 0)) (ins.getD 1 (.userInput 0)); (p.1, [p.2]))

def muxMachine : Machine :=
  Machine.new 3 (fun a ins =>
    let p := mkMux a (ins.getD 0 (.userInput 0)) (ins.getD 1 (.userInput 0))
        (ins.getD 2 (.userInput 0))
    (p.1, [p.2]))

def demuxMachine : Machine :=
  Machine.new 2 (fun a ins =>
    let p := mkDemux a (ins.getD 0 (.userInput 0)) (ins.getD 1 (.userInput 0))
    (p.1, [p.2.1, p.2.2]))

def srlatchMachine : Machine :=
  Machine.new 2 (fun a ins =>
    let p := mkSrlatch a (ins.getD 0 (.userInput 0)) (ins.getD 1 (.userInput 0))
    (p.1, [p.2.1, p.2.2]))

def passMachine : Machine :=
  Machine.new 1 (fun a ins => let p := mkPass a (ins.getD 0 (.userInput 0)); (p.1, [p.2]))

/-- A bare primitive NAND over two user inputs (no chip wrapping). -/
def nandOnlyArena (v1 v2 : Bool) : Arena :=
  { userInit := [v1, v2], chipInputs := [], chipOutputs := []
    nands := [some (.userInput 0, .userInput 1)] }

/-- Projection of an evaluation result to just the produced value. -/
def evalVal (r : EvalRes) : Option Bool :=
  match r with
  | .ok v _ => some v
  | _ => none

/-! ### Combinational denotations, from src/project/src/main.rs

The chip functions are ordinary feed-forward compositions of the NAND
primitive; their boolean denotations below follow the source gate by gate
(`NAND: not(a and b)` is the compute step of `Nand::process`).  The
machine-level truth-table theorems check these compositions against the
actual memoized evaluation for every input of every basic gate. -/

def nandFn (a b : Bool) : Bool := !(a && b)

def notFn (a : Bool) : Bool := nandFn a a

def andFn (a b : Bool) : Bool := notFn (nandFn a b)

def orFn (a b : Bool) : Bool := nandFn (notFn a) (notFn b)

def xorFn (a b : Bool) : Bool := andFn (notFn (andFn a b)) (orFn a b)

/-- Output record of the adder chips (`struct AdderOut`). -/
structure AdderOutF where
  sum : Bool
  carry : Bool
deriving DecidableEq, Repr

/-- `halfadder`: sum = xor, carry = and. -/
def halfadderFn (n1 n2 : Bool) : AdderOutF :=
  { sum := xorFn n1 n2, carry := andFn n1 n2 }

/-- `fulladder`: two half adders plus an or on the carries; in `adder16` it
is called as `Fulladder::new(prev_carry, x.0, x.1)`. -/
def fulladderFn (n1 n2 n3 : Bool) : AdderOutF :=
  let h1 := halfadderFn n1 n2
  let h2 := halfadderFn n3 h1.sum
  { sum := h2.sum, carry := orFn h1.carry h2.carry }

/-- The ripple fold of `adder16`: starting from the half adder's carry,
push one full adder per remaining bit pair (least significant first),
returning the sums (least significant first) and the final carry. -/
def adderChain (c : Bool) : List (Bool × Bool) → List Bool × Bool
  | [] => ([], c)
  | p :: ps =>
    let fa := fulladderFn c p.1 p.2
    let rest := adderChain fa.carry ps
    (fa.sum :: rest.1, rest.2)

/-- `adder16` (src/project/src/main.rs lines 368-395).  Bit arrays are
most-significant-bit first (index 15 is the least significant bit): the
half adder takes `num1[15], num2[15]`, the fold walks the first fifteen
pairs reversed, and the collected sums are reversed back; the final carry
is discarded. -/
def adder16Fn (num1 num2 : List Bool) : List Bool :=
  match num1.reverse, num2.reverse with
  | a0 :: as1, b0 :: bs1 =>
    let h := halfadderFn a0 b0
    let ch := adderChain h.carry (as1.zip bs1)
    (h.sum :: ch.1).reverse
  | _, _ => []

/-- The constant-one input vector built by `incrementer16`: fifteen
`UserInput::from(alloc, false)` cells followed by one
`UserInput::from(alloc, true)` cell (most-significant first). -/
def one16 : List Bool := List.replicate 15 false ++ [true]

/-- `incrementer16` (src/project/src/main.rs lines 397-412): the Adder16
chip applied to the constant one vector (as num1) and the input (as num2). -/
def incrementer16Fn (num : List Bool) : List Bool := adder16Fn one16 num

/-- Value of a least-significant-bit-first bit list. -/
def lsbVal : List Bool → Nat
  | [] => 0
  | b :: bs => b.toNat + 2 * lsbVal bs

/-- Value of a most-significant-bit-first bit list (the convention of the
chip ports and of the tests' `ntb` helper). -/
def bitsVal (l : List Bool) : Nat := lsbVal l.reverse

/-- The 16 most-significant-first bits of a number (the tests' `ntb`). -/
def natBits16 (n : Nat) : List Bool :=
  (List.range 16).map (fun i => Nat.testBit n (15 - i))

/-! ### StructuredData, from the derive macro in src/hdl-macro/src/lib.rs

The derive reads the declared fields of a record in order; a field is either
a single element or a fixed-size array.  The generated `from_flat`
destructures the flat array `[in0, ..., in(A-1)]` and regroups consecutive
chunks per field in declared order; the generated `to_flat` destructures the
fields into `o0, ..., o(A-1)` and emits them concatenated.  The functions
below are that generated code, indexed by the record's field shape instead
of being emitted once per concrete struct. -/

/-- Shape of one declared field: a single element, or an array of n
elements. -/
inductive FieldShape where
  | scalar
  | arr (n : Nat)
deriving DecidableEq, Repr

/-- Value of one field of the record. -/
inductive FieldVal (T : Type) where
  | scalar (t : T)
  | arr (ts : List T)
deriving DecidableEq, Repr

/-- How many flat elements one field contributes. -/
def fieldArity : FieldShape → Nat
  | .scalar => 1
  | .arr n => n

/-- The declared (compile-time) arity of a record shape: the sum of its
field contributions, depth first in declared field order. -/
def shapeArity (sh : List FieldShape) : Nat := (sh.map fieldArity).sum

/-- A record value matches its declared shape (array fields have exactly
their declared length). -/
def conformsB {T : Type} : List FieldShape → List (FieldVal T) → Bool
  | [], [] => true
  | .scalar :: sh, .scalar _ :: r => conformsB sh r
  | .arr n :: sh, .arr ts :: r => ts.length == n && conformsB sh r
  | _, _ => false

/-- Generated `from_flat`: split the flat array into the record's fields in
declared order.  `none` models the shape-mismatch construction error
(spec section 7): the generated destructuring only typechecks when the flat
array has exactly the record's arity. -/
def from_flat {T : Type} : List FieldShape → List T → Option (List (FieldVal T))
  | [], [] => some []
  | [], _ :: _ => none
  | .scalar :: sh, x :: flat => (from_flat sh flat).map (fun r => .scalar x :: r)
  | .scalar :: _, [] => none
  | .arr n :: sh, flat =>
    if n ≤ flat.length then
      (from_flat sh (flat.drop n)).map (fun r => .arr (flat.take n) :: r)
    else none

/-- Generated `to_flat`: concatenate the fields in declared order. -/
def to_flat {T : Type} : List (FieldVal T) → List T
  | [] => []
  | .scalar t :: r => t :: to_flat r
  | .arr ts :: r => ts ++ to_flat r

/-! ### Helper lemmas -/

theorem lget_isSome_iff {α : Type} : ∀ (l : List α) (n : Nat), (lget l n).isSome ↔ n < l.length := by
  intro l
  induction l with
  | nil => intro n; simp [lget]
  | cons x xs ih =>
    intro n
    cases n with
    | zero => simp [lget]
    | succ k => simpa [lget, Nat.succ_lt_succ_iff] using ih k

theorem lget_some_lt {α : Type} {l : List α} {n : Nat} {v : α} (h : lget l n = some v) :
    n < l.length := by
  have := (lget_isSome_iff l n).mp (by simp [h])
  exact this

theorem lset_length {α : Type} : ∀ (l : List α) (n : Nat) (v : α), (lset l n v).length = l.length := by
  intro l
  induction l with
  | nil => intro n v; rfl
  | cons x xs ih =>
    intro n v
    cases n with
    | zero => rfl
    | succ k => simp [lset, ih]

theorem lget_lset_self {α : Type} : ∀ (l : List α) (n : Nat) (v : α), n < l.length →
    lget (lset l n v) n = some v := by
  intro l
  induction l with
  | nil => intro n v h; simp at h
  | cons x xs ih =>
    intro n v h
    cases n with
    | zero => rfl
    | succ k =>
      simp only [lset, lget]
      exact ih k v (by simpa [Nat.succ_lt_succ_iff] using h)

theorem lget_replicate {α : Type} (c : α) : ∀ (k n : Nat), n < k →
    lget (List.replicate k c) n = some c := by
  intro k
  induction k with
  | zero => intro n h; omega
  | succ m ih =>
    intro n h
    cases n with
    | zero => rfl
    | succ j => exact ih j (by omega)

theorem take_len_append {α : Type} : ∀ (l1 l2 : List α), (l1 ++ l2).take l1.length = l1 := by
  intro l1
  induction l1 with
  | nil => intro l2; rfl
  | cons x xs ih => intro l2; simp [ih]

theorem drop_len_append {α : Type} : ∀ (l1 l2 : List α), (l1 ++ l2).drop l1.length = l2 := by
  intro l1
  induction l1 with
  | nil => intro l2; rfl
  | cons x xs ih => intro l2; simp [ih]

theorem to_flat_length {T : Type} : ∀ {sh : List FieldShape} {r : List (FieldVal T)},
    conformsB sh r = true → (to_flat r).length = shapeArity sh := by
  intro sh
  induction sh with
  | nil =>
    intro r h
    cases r with
    | nil => rfl
    | cons f rest => cases f <;> simp [conformsB] at h
  | cons f sh ih =>
    intro r h
    cases r with
    | nil => cases f <;> simp [conformsB] at h
    | cons g rest =>
      cases f with
      | scalar =>
        cases g with
        | scalar t =>
          simp only [conformsB] at h
          simp [to_flat, shapeArity, fieldArity, List.sum_cons, ih h]
          omega
        | arr ts => simp [conformsB] at h
      | arr n =>
        cases g with
        | scalar t => simp [conformsB] at h
        | arr ts =>
          simp only [conformsB, Bool.and_eq_true, beq_iff_eq] at h
          simp [to_flat, shapeArity, fieldArity, List.sum_cons, ih h.2, h.1]

theorem from_flat_to_flat {T : Type} : ∀ (sh : List FieldShape) (r : List (FieldVal T)),
    conformsB sh r = true → from_flat sh (to_flat r) = some r := by
  intro sh
  induction sh with
  | nil =>
    intro r h
    cases r with
    | nil => rfl
    | cons f rest => cases f <;> simp [conformsB] at h
  | cons f sh ih =>
    intro r h
    cases r with
    | nil => cases f <;> simp [conformsB] at h
    | cons g rest =>
      cases f with
      | scalar =>
        cases g with
        | scalar t =>
          simp only [conformsB] at h
          simp [to_flat, from_flat, ih rest h]
        | arr ts => simp [conformsB] at h
      | arr n =>
        cases g with
        | scalar t => simp [conformsB] at h
        | arr ts =>
          simp only [conformsB, Bool.and_eq_true, beq_iff_eq] at h
          have hlen : ts.length = n := h.1
          simp only [to_flat, from_flat]
          rw [if_pos (by simp [← hlen])]
          rw [← hlen, drop_len_append, take_len_append, ih rest h.2]
          rfl

theorem to_flat_from_flat {T : Type} : ∀ (sh : List FieldShape) (flat : List T),
    flat.length = shapeArity sh → (from_flat sh flat).map to_flat = some flat := by
  intro sh
  induction sh with
  | nil =>
    intro flat h
    cases flat with
    | nil => rfl
    | cons x rest => simp [shapeArity] at h
  | cons f sh ih =>
    intro flat h
    cases f with
    | scalar =>
      cases flat with
      | nil =>
        simp only [shapeArity, fieldArity, List.map_cons, List.sum_cons, List.length_nil] at h
        exact absurd h (by omega)
      | cons x rest =>
        simp only [shapeArity, fieldArity, List.map_cons, List.sum_cons, List.length_cons] at h
        have h2 : rest.length = shapeArity sh := by simp only [shapeArity]; omega
        have := ih rest h2
        simp only [from_flat, Option.map_map]
        cases hf : from_flat sh rest with
        | none => rw [hf] at this; simp at this
        | some r =>
          rw [hf] at this
          simp only [Option.map, Option.bind] at this
          simp [hf, Function.comp, to_flat, Option.map]
          exact Option.some.inj this
    | arr n =>
      simp only [shapeArity, fieldArity, List.map_cons, List.sum_cons] at h
      have hle : n ≤ flat.length := by omega
      have h2 : (flat.drop n).length = shapeArity sh := by
        simp only [List.length_drop, shapeArity]; omega
      have := ih (flat.drop n) h2
      simp only [from_flat, if_pos hle, Option.map_map]
      cases hf : from_flat sh (flat.drop n) with
      | none => rw [hf] at this; simp at this
      | some r =>
        rw [hf] at this
        simp only [Option.map, Option.bind] at this
        have hr : to_flat r = flat.drop n := Option.some.inj this
        simp [Function.comp, to_flat, hr, Option.map, List.take_append_drop]

/-! Adder arithmetic helpers. -/

theorem halfadder_val (a b : Bool) :
    (halfadderFn a b).sum.toNat + 2 * (halfadderFn a b).carry.toNat = a.toNat + b.toNat := by
  revert a b
  decide

theorem fulladder_val (c a b : Bool) :
    (fulladderFn c a b).sum.toNat + 2 * (fulladderFn c a b).carry.toNat
      = c.toNat + a.toNat + b.toNat := by
  revert c a b
  decide

theorem adderChain_length : ∀ (ps : List (Bool × Bool)) (c : Bool),
    (adderChain c ps).1.length = ps.length := by
  intro ps
  induction ps with
  | nil => intro c; rfl
  | cons p ps ih => intro c; simp [adderChain, ih]

theorem lsbVal_lt : ∀ l : List Bool, lsbVal l < 2 ^ l.length := by
  intro l
  induction l with
  | nil => simp [lsbVal]
  | cons b bs ih =>
    have hb : b.toNat ≤ 1 := Bool.toNat_le b
    simp only [lsbVal, List.length_cons, pow_succ]
    omega

theorem adderChain_val : ∀ (ps : List (Bool × Bool)) (c : Bool),
    lsbVal (adderChain c ps).1 + 2 ^ ps.length * (adderChain c ps).2.toNat
      = c.toNat + lsbVal (ps.map Prod.fst) + lsbVal (ps.map Prod.snd) := by
  intro ps
  induction ps with
  | nil => intro c; simp [adderChain, lsbVal]
  | cons p ps ih =>
    intro c
    have hfa := fulladder_val c p.1 p.2
    have ihc := ih (fulladderFn c p.1 p.2).carry
    simp only [adderChain, lsbVal, List.map_cons, List.length_cons, pow_succ]
    have hpow : 2 ^ ps.length * 2 * ((adderChain (fulladderFn c p.1 p.2).carry ps).2).toNat
        = 2 * (2 ^ ps.length * ((adderChain (fulladderFn c p.1 p.2).carry ps).2).toNat) := by
      ring
    rw [hpow]
    omega

theorem halfadder_comm (a b : Bool) : halfadderFn a b = halfadderFn b a := by
  revert a b
  decide

theorem fulladder_comm (c a b : Bool) : fulladderFn c a b = fulladderFn c b a := by
  revert c a b
  decide

theorem adderChain_zip_comm : ∀ (xs ys : List Bool) (c : Bool), xs.length = ys.length →
    adderChain c (xs.zip ys) = adderChain c (ys.zip xs) := by
  intro xs
  induction xs with
  | nil =>
    intro ys c h
    cases ys with
    | nil => rfl
    | cons y ys => simp at h
  | cons x xs ih =>
    intro ys c h
    cases ys with
    | nil => simp at h
    | cons y ys =>
      have hz1 : (x :: xs).zip (y :: ys) = (x, y) :: xs.zip ys := rfl
      have hz2 : (y :: ys).zip (x :: xs) = (y, x) :: ys.zip xs := rfl
      rw [hz1, hz2]
      simp only [adderChain]
      rw [fulladder_comm, ih ys _ (by simpa using h)]

theorem adder16_val (n1 n2 : List Bool) (h1 : n1.length = 16) (h2 : n2.length = 16) :
    bitsVal (adder16Fn n1 n2) = (bitsVal n1 + bitsVal n2) % 65536 := by
  rcases hr1 : n1.reverse with _ | ⟨a0, as1⟩
  · have hl := congrArg List.length hr1
    simp [h1] at hl
  rcases hr2 : n2.reverse with _ | ⟨b0, bs1⟩
  · have hl := congrArg List.length hr2
    simp [h2] at hl
  have hlen1 : as1.length = 15 := by
    have hl := congrArg List.length hr1
    simp [h1] at hl
    omega
  have hlen2 : bs1.length = 15 := by
    have hl := congrArg List.length hr2
    simp [h2] at hl
    omega
  have hziplen : (as1.zip bs1).length = 15 := by simp [hlen1, hlen2]
  have hch := adderChain_val (as1.zip bs1) (halfadderFn a0 b0).carry
  rw [List.map_fst_zip as1 bs1 (by omega), List.map_snd_zip as1 bs1 (by omega), hziplen] at hch
  have hha := halfadder_val a0 b0
  have hbound := lsbVal_lt (adderChain (halfadderFn a0 b0).carry (as1.zip bs1)).1
  rw [adderChain_length, hziplen] at hbound
  have hcarry : ((adderChain (halfadderFn a0 b0).carry (as1.zip bs1)).2).toNat ≤ 1 :=
    Bool.toNat_le _
  have hsb : ((halfadderFn a0 b0).sum).toNat ≤ 1 := Bool.toNat_le _
  simp only [adder16Fn, hr1, hr2]
  simp only [bitsVal, hr1, hr2, List.reverse_reverse, lsbVal]
  norm_num at hch hbound ⊢
  omega

/-! Engine lemmas: cache hits, and preservation of the cell-array shapes. -/

theorem eval_nand_hit (a : Arena) (fuel n tick : Nat) (st : EvalState) (v : Bool)
    (hI : lget st.nandIter n = some tick) (hV : lget st.nandVal n = some v) :
    eval a (fuel + 1) (.nand n) tick st = .ok v st := by
  simp [eval, hI, hV]

theorem eval_out_hit (a : Arena) (fuel o tick : Nat) (st : EvalState) (v : Bool)
    (hI : lget st.outIter o = some tick) (hV : lget st.outVal o = some v) :
    eval a (fuel + 1) (.out o) tick st = .ok v st := by
  simp [eval, hI, hV]

theorem eval_shape (a : Arena) : ∀ (fuel : Nat) (t : Target) (tick : Nat) (st : EvalState)
    (v : Bool) (st' : EvalState), eval a fuel t tick st = .ok v st' →
    st'.userVals = st.userVals ∧
    st'.outIter.length = st.outIter.length ∧
    st'.outVal.length = st.outVal.length ∧
    st'.nandIter.length = st.nandIter.length ∧
    st'.nandVal.length = st.nandVal.length := by
  intro fuel
  induction fuel with
  | zero =>
    intro t tick st v st' h
    simp [eval] at h
  | succ f ih =>
    intro t tick st v st' h
    cases t with
    | inp i =>
      cases i with
      | userInput u =>
        simp only [eval] at h
        cases hu : lget st.userVals u with
        | none => simp [hu] at h
        | some w =>
          simp only [hu] at h
          cases h
          exact ⟨rfl, rfl, rfl, rfl, rfl⟩
      | chipOutput o =>
        simp only [eval] at h
        exact ih _ _ _ _ _ h
      | chipInput c =>
        simp only [eval] at h
        exact ih _ _ _ _ _ h
      | nandInput n =>
        simp only [eval] at h
        exact ih _ _ _ _ _ h
    | cin c =>
      simp only [eval] at h
      cases hc : lget a.chipInputs c with
      | none => simp [hc] at h
      | some i =>
        simp only [hc] at h
        exact ih _ _ _ _ _ h
    | out o =>
      simp only [eval] at h
      cases hI : lget st.outIter o with
      | none => simp [hI] at h
      | some it =>
      cases hV : lget st.outVal o with
      | none => simp [hI, hV] at h
      | some w =>
      simp only [hI, hV] at h
      by_cases hit : it = tick
      · simp only [if_pos hit] at h
        cases h
        exact ⟨rfl, rfl, rfl, rfl, rfl⟩
      · simp only [if_neg hit] at h
        cases hS : lget a.chipOutputs o with
        | none => simp [hS] at h
        | some osrc =>
        cases osrc with
        | none => simp [hS] at h
        | some src =>
        simp only [hS] at h
        cases src with
        | chipOutput o2 =>
          cases hr : eval a f (.out o2) tick st with
          | unbound => simp [hr, withOk] at h
          | noFuel => simp [hr, withOk] at h
          | ok w1 st1 =>
            simp only [hr, withOk] at h
            obtain ⟨h1, h2, h3, h4, h5⟩ := ih _ _ _ _ _ hr
            cases h
            exact ⟨h1, by simp [lset_length, h2], by simp [lset_length, h3], h4, h5⟩
        | nandOutput n2 =>
          cases hr : eval a f (.nand n2) tick st with
          | unbound => simp [hr, withOk] at h
          | noFuel => simp [hr, withOk] at h
          | ok w1 st1 =>
            simp only [hr, withOk] at h
            obtain ⟨h1, h2, h3, h4, h5⟩ := ih _ _ _ _ _ hr
            cases h
            exact ⟨h1, by simp [lset_length, h2], by simp [lset_length, h3], h4, h5⟩
        | chipInput c2 =>
          cases hr : eval a f (.cin c2) tick st with
          | unbound => simp [hr, withOk] at h
          | noFuel => simp [hr, withOk] at h
          | ok w1 st1 =>
            simp only [hr, withOk] at h
            obtain ⟨h1, h2, h3, h4, h5⟩ := ih _ _ _ _ _ hr
            cases h
            exact ⟨h1, by simp [lset_length, h2], by simp [lset_length, h3], h4, h5⟩
    | nand n =>
      simp only [eval] at h
      cases hI : lget st.nandIter n with
      | none => simp [hI] at h
      | some it =>
      cases hV : lget st.nandVal n with
      | none => simp [hI, hV] at h
      | some w =>
      simp only [hI, hV] at h
      by_cases hit : tick = it
      · simp only [if_pos hit] at h
        cases h
        exact ⟨rfl, rfl, rfl, rfl, rfl⟩
      · simp only [if_neg hit] at h
        cases hS : lget a.nands n with
        | none => simp [hS] at h
        | some onp =>
        cases onp with
        | none => simp [hS] at h
        | some p =>
        simp only [hS] at h
        cases hr1 : eval a f (.inp p.1) tick st with
        | unbound => simp [hr1, withOk] at h
        | noFuel => simp [hr1, withOk] at h
        | ok v1 st1 =>
        simp only [hr1, withOk] at h
        cases hr2 : eval a f (.inp p.2) tick st1 with
        | unbound => simp [hr2, withOk] at h
        | noFuel => simp [hr2, withOk] at h
        | ok v2 st2 =>
        simp only [hr2, withOk] at h
        obtain ⟨g1, g2, g3, g4, g5⟩ := ih _ _ _ _ _ hr1
        obtain ⟨k1, k2, k3, k4, k5⟩ := ih _ _ _ _ _ hr2
        cases h
        refine ⟨k1.trans g1, k2.trans g2, k3.trans g3, ?_, ?_⟩
        · simp [lset_length, k4, g4]
        · simp [lset_length, k5, g5]

theorem eval_nand_stamps (a : Arena) (fuel n tick : Nat) (st : EvalState) (v : Bool)
    (st' : EvalState) (h : eval a fuel (.nand n) tick st = .ok v st') :
    lget st'.nandIter n = some tick ∧ lget st'.nandVal n = some v := by
  cases fuel with
  | zero => simp [eval] at h
  | succ f =>
    simp only [eval] at h
    cases hI : lget st.nandIter n with
    | none => simp [hI] at h
    | some it =>
    cases hV : lget st.nandVal n with
    | none => simp [hI, hV] at h
    | some w =>
    simp only [hI, hV] at h
    by_cases hit : tick = it
    · simp only [if_pos hit] at h
      cases h
      exact ⟨hit ▸ hI, hV⟩
    · simp only [if_neg hit] at h
      cases hS : lget a.nands n with
      | none => simp [hS] at h
      | some onp =>
      cases onp with
      | none => simp [hS] at h
      | some p =>
      simp only [hS] at h
      cases hr1 : eval a f (.inp p.1) tick st with
      | unbound => simp [hr1, withOk] at h
      | noFuel => simp [hr1, withOk] at h
      | ok v1 st1 =>
      simp only [hr1, withOk] at h
      cases hr2 : eval a f (.inp p.2) tick st1 with
      | unbound => simp [hr2, withOk] at h
      | noFuel => simp [hr2, withOk] at h
      | ok v2 st2 =>
      simp only [hr2, withOk] at h
      have hn : n < st.nandIter.length := lget_some_lt hI
      have hnv : n < st.nandVal.length := lget_some_lt hV
      obtain ⟨-, -, -, g4, g5⟩ := eval_shape a f _ _ _ _ _ hr1
      obtain ⟨-, -, -, k4, k5⟩ := eval_shape a f _ _ _ _ _ hr2
      cases h
      constructor
      · simpa using lget_lset_self st2.nandIter n tick (by omega)
      · simpa using lget_lset_self st2.nandVal n (!(v1 && v2)) (by omega)

theorem eval_out_stamps (a : Arena) (fuel o tick : Nat) (st : EvalState) (v : Bool)
    (st' : EvalState) (h : eval a fuel (.out o) tick st = .ok v st') :
    lget st'.outIter o = some tick ∧ lget st'.outVal o = some v := by
  cases fuel with
  | zero => simp [eval] at h
  | succ f =>
    simp only [eval] at h
    cases hI : lget st.outIter o with
    | none => simp [hI] at h
    | some it =>
    cases hV : lget st.outVal o with
    | none => simp [hI, hV] at h
    | some w =>
    simp only [hI, hV] at h
    by_cases hit : it = tick
    · simp only [if_pos hit] at h
      cases h
      exact ⟨hit ▸ hI, hV⟩
    · simp only [if_neg hit] at h
      cases hS : lget a.chipOutputs o with
      | none => simp [hS] at h
      | some osrc =>
      cases osrc with
      | none => simp [hS] at h
      | some src =>
      simp only [hS] at h
      have hn : o < st.outIter.length := lget_some_lt hI
      have hnv : o < st.outVal.length := lget_some_lt hV
      cases src with
      | chipOutput o2 =>
        cases hr : eval a f (.out o2) tick st with
        | unbound => simp [hr, withOk] at h
        | noFuel => simp [hr, withOk] at h
        | ok w1 st1 =>
          simp only [hr, withOk] at h
          obtain ⟨-, g2, g3, -, -⟩ := eval_shape a f _ _ _ _ _ hr
          cases h
          constructor
          · simpa using lget_lset_self st1.outIter o tick (by omega)
          · simpa using lget_lset_self st1.outVal o v (by omega)
      | nandOutput n2 =>
        cases hr : eval a f (.nand n2) tick st with
        | unbound => simp [hr, withOk] at h
        | noFuel => simp [hr, withOk] at h
        | ok w1 st1 =>
          simp only [hr, withOk] at h
          obtain ⟨-, g2, g3, -, -⟩ := eval_shape a f _ _ _ _ _ hr
          cases h
          constructor
          · simpa using lget_lset_self st1.outIter o tick (by omega)
          · simpa using lget_lset_self st1.outVal o v (by omega)
      | chipInput c2 =>
        cases hr : eval a f (.cin c2) tick st with
        | unbound => simp [hr, withOk] at h
        | noFuel => simp [hr, withOk] at h
        | ok w1 st1 =>
          simp only [hr, withOk] at h
          obtain ⟨-, g2, g3, -, -⟩ := eval_shape a f _ _ _ _ _ hr
          cases h
          constructor
          · simpa using lget_lset_self st1.outIter o tick (by omega)
          · simpa using lget_lset_self st1.outVal o v (by omega)

theorem adder16Fn_comm (n1 n2 : List Bool) (h : n1.length = n2.length) :
    adder16Fn n1 n2 = adder16Fn n2 n1 := by
  rcases hr1 : n1.reverse with _ | ⟨a0, as1⟩ <;> rcases hr2 : n2.reverse with _ | ⟨b0, bs1⟩
  · simp [adder16Fn, hr1, hr2]
  · have hl1 : n1.length = 0 := by
      have hc := congrArg List.length hr1
      simpa using hc
    have hl2 : n2.length = bs1.length + 1 := by
      have hc := congrArg List.length hr2
      simpa using hc
    omega
  · have hl1 : n1.length = as1.length + 1 := by
      have hc := congrArg List.length hr1
      simpa using hc
    have hl2 : n2.length = 0 := by
      have hc := congrArg List.length hr2
      simpa using hc
    omega
  · have hl1 : n1.length = as1.length + 1 := by
      have hc := congrArg List.length hr1
      simpa using hc
    have hl2 : n2.length = bs1.length + 1 := by
      have hc := congrArg List.length hr2
      simpa using hc
    have hlen : as1.length = bs1.length := by omega
    simp only [adder16Fn, hr1, hr2]
    rw [halfadder_comm, adderChain_zip_comm as1 bs1 _ hlen]

/-! Divergence of feedback evaluation under the stamp-after-recursion code.

The SR latch arena produced by the spec-modelled `create_subchip` is the
two cross-coupled NANDs of src/project's `srlatch`; `srSt` is the machine
state right after `process([false, true])` has written the user inputs,
about to evaluate the outputs at tick 1. -/

def srArena : Arena := srlatchMachine.arena

def srSt : EvalState :=
  { srlatchMachine.st with
    userVals := writeVals srlatchMachine.st.userVals srlatchMachine.inputs [false, true] }

theorem sr_loop : ∀ fuel : Nat,
    eval srArena fuel (.nand 0) 1 srSt = .noFuel ∧
    eval srArena fuel (.nand 1) 1 srSt = .noFuel := by
  intro fuel
  induction fuel using Nat.strongRecOn with
  | ind fuel ih =>
    match fuel, ih with
    | 0, _ => exact ⟨rfl, rfl⟩
    | 1, _ => exact ⟨rfl, rfl⟩
    | 2, _ => exact ⟨rfl, rfl⟩
    | 3, _ => exact ⟨rfl, rfl⟩
    | (k + 4), ih =>
      refine ⟨?_, ?_⟩
      · calc eval srArena (k + 4) (.nand 0) 1 srSt
            = withOk (eval srArena (k + 2) (.nand 1) 1 srSt) (fun v2 st2 =>
                .ok (!(false && v2))
                  { st2 with nandIter := lset st2.nandIter 0 1
                             nandVal := lset st2.nandVal 0 (!(false && v2)) }) := rfl
          _ = .noFuel := by rw [(ih (k + 2) (by omega)).2]; rfl
      · calc eval srArena (k + 4) (.nand 1) 1 srSt
            = withOk (eval srArena (k + 2) (.nand 0) 1 srSt) (fun v2 st2 =>
                .ok (!(true && v2))
                  { st2 with nandIter := lset st2.nandIter 1 1
                             nandVal := lset st2.nandVal 1 (!(true && v2)) }) := rfl
          _ = .noFuel := by rw [(ih (k + 2) (by omega)).1]; rfl

/-- A one-NAND feedback loop routed through a memoized ChipOutput node: the
NAND's second input reads the ChipOutput (through its wrapper), and the
ChipOutput wraps the NAND.  Every cycle passes through both kinds of
memoized node. -/
def cycArena : Arena :=
  { userInit := [true], chipInputs := [], chipOutputs := [some (.nandOutput 0)]
    nands := [some (.userInput 0, .chipOutput 0)] }

theorem cyc_loop : ∀ fuel : Nat,
    eval cycArena fuel (.out 0) 1 (initState cycArena) = .noFuel ∧
    eval cycArena fuel (.nand 0) 1 (initState cycArena) = .noFuel := by
  intro fuel
  induction fuel using Nat.strongRecOn with
  | ind fuel ih =>
    match fuel, ih with
    | 0, _ => exact ⟨rfl, rfl⟩
    | 1, _ => exact ⟨rfl, rfl⟩
    | 2, _ => exact ⟨rfl, rfl⟩
    | (k + 3), ih =>
      refine ⟨?_, ?_⟩
      · calc eval cycArena (k + 3) (.out 0) 1 (initState cycArena)
            = withOk (eval cycArena (k + 2) (.nand 0) 1 (initState cycArena)) (fun res st1 =>
                .ok res { st1 with outIter := lset st1.outIter 0 1
                                   outVal := lset st1.outVal 0 res }) := rfl
          _ = .noFuel := by rw [(ih (k + 2) (by omega)).2]; rfl
      · calc eval cycArena (k + 3) (.nand 0) 1 (initState cycArena)
            = withOk (eval cycArena (k + 1) (.out 0) 1 (initState cycArena)) (fun v2 st2 =>
                .ok (!(true && v2))
                  { st2 with nandIter := lset st2.nandIter 0 1
                             nandVal := lset st2.nandVal 0 (!(true && v2)) }) := rfl
          _ = .noFuel := by rw [(ih (k + 1) (by omega)).1]; rfl

/-- C4: the claim says an SR latch built from two cross-coupled NAND gates
via create_subchip reaches a stable output after one process() call and
holds it under repeated identical input.  Against the code under src/hdl
this is false: because `Nand::process` writes its tick stamp only after
recursively evaluating its inputs, the very first `process` call on the
latch machine re-enters the same NAND at the same tick, misses the cache,
and recurses forever — for every fuel bound the call fails to complete
(`create_subchip` and the Nand late-bound slots are modelled from the
spec; the evaluation protocol deciding the claim is src/hdl code). -/
theorem srlatch_process_diverges : ∀ fuel : Nat, srlatchMachine.process [false, true] fuel = none := by
  intro fuel
  cases fuel with
  | zero => rfl
  | succ k =>
    have h0 : eval srArena (k + 1) (.out 0) 1 srSt = .noFuel := by
      cases k with
      | zero => rfl
      | succ k2 =>
        calc eval srArena (k2 + 2) (.out 0) 1 srSt
            = withOk (eval srArena (k2 + 1) (.nand 0) 1 srSt) (fun res st1 =>
                .ok res { st1 with outIter := lset st1.outIter 0 1
                                   outVal := lset st1.outVal 0 res }) := rfl
          _ = .noFuel := by rw [(sr_loop (k2 + 1)).1]; rfl
    have h1 : evalOuts srArena (k + 1) 1 [0, 1] srSt = none := by
      calc evalOuts srArena (k + 1) 1 [0, 1] srSt
          = okThen (eval srArena (k + 1) (.out 0) 1 srSt) (fun v st1 =>
              (evalOuts srArena (k + 1) 1 [1] st1).map (fun p => (v :: p.1, p.2))) := rfl
        _ = none := by rw [h0]; rfl
    calc srlatchMachine.process [false, true] (k + 1)
        = (evalOuts srArena (k + 1) 1 [0, 1] srSt).map
            (fun p => (p.1, { srlatchMachine with iteration := 1, st := p.2 })) := rfl
      _ = none := by rw [h1]; rfl

/-! ### Claim theorems -/

/-- C1: the claim says a Nand or ChipOutput node evaluated at a tick
different from its stamp sets `last_tick_stamped = tick` **before**
recursing into its own inputs, so that a re-entrant evaluation of the same
node at the same tick (feedback) hits the cache and terminates with the
previous tick's value.  Against src/hdl this is false: `Nand::process`
(lines 640-650) and `ChipOutput::process` (lines 548-560) write the stamp
only **after** evaluating their inputs, so on the cross-coupled NAND pair of
the SR latch the re-entrant call misses the cache and the evaluation
recurses forever: at tick 1 it runs out of every fuel bound. -/
theorem nand_feedback_eval_diverges :
    ∀ fuel : Nat, eval srArena fuel (.nand 0) 1 srSt = .noFuel :=
  fun fuel => (sr_loop fuel).1

/-- C2: the claim says evaluation terminates for every correctly
constructed finite circuit — acyclic, or cyclic with every cycle passing
through at least one memoized Nand or ChipOutput node.  Against src/hdl
this is false for the cyclic case: in `cycArena` the only cycle passes
through both a memoized Nand and a memoized ChipOutput, yet evaluating the
output at tick 1 exhausts every fuel bound, because the stamps are written
only after the recursive input evaluation. -/
theorem cyclic_graph_eval_diverges :
    ∀ fuel : Nat, eval cycArena fuel (.out 0) 1 (initState cycArena) = .noFuel :=
  fun fuel => (cyc_loop fuel).1

/-- C3: evaluating a Nand or ChipOutput node at a tick equal to its stored
tick stamp returns the cached value immediately — with unchanged cells and
without recursing into its inputs (the equation holds already at one unit
of fuel, which forbids any recursive call) — and, once a node has been
successfully evaluated at a tick, any further evaluation of it at the same
tick returns the same value with unchanged cells, so within one process()
call each node is computed at most once regardless of fan-out. -/
theorem memoized_cache_hit_at_most_once :
    (∀ (a : Arena) (fuel n tick : Nat) (st : EvalState) (v : Bool),
        lget st.nandIter n = some tick → lget st.nandVal n = some v →
        eval a (fuel + 1) (.nand n) tick st = .ok v st) ∧
    (∀ (a : Arena) (fuel o tick : Nat) (st : EvalState) (v : Bool),
        lget st.outIter o = some tick → lget st.outVal o = some v →
        eval a (fuel + 1) (.out o) tick st = .ok v st) ∧
    (∀ (a : Arena) (fuel fuel2 n tick : Nat) (st : EvalState) (v : Bool) (st' : EvalState),
        eval a fuel (.nand n) tick st = .ok v st' →
        eval a (fuel2 + 1) (.nand n) tick st' = .ok v st') ∧
    (∀ (a : Arena) (fuel fuel2 o tick : Nat) (st : EvalState) (v : Bool) (st' : EvalState),
        eval a fuel (.out o) tick st = .ok v st' →
        eval a (fuel2 + 1) (.out o) tick st' = .ok v st') := by
  refine ⟨eval_nand_hit, eval_out_hit, ?_, ?_⟩
  · intro a fuel fuel2 n tick st v st' h
    obtain ⟨h1, h2⟩ := eval_nand_stamps a fuel n tick st v st' h
    exact eval_nand_hit a fuel2 n tick st' v h1 h2
  · intro a fuel fuel2 o tick st v st' h
    obtain ⟨h1, h2⟩ := eval_out_stamps a fuel o tick st v st' h
    exact eval_out_hit a fuel2 o tick st' v h1 h2

/-- Witness for C3: a NAND whose stamp already equals tick 7 returns its
cached value true at one unit of fuel, leaving the cells unchanged. -/
theorem memoized_cache_hit_at_most_once_witness :
    eval (nandOnlyArena true true) 1 (.nand 0) 7
        { userVals := [true, true], outIter := [], outVal := [], nandIter := [7], nandVal := [true] }
      = .ok true
        { userVals := [true, true], outIter := [], outVal := [], nandIter := [7], nandVal := [true] } :=
  memoized_cache_hit_at_most_once.1 (nandOnlyArena true true) 0 0 7
    { userVals := [true, true], outIter := [], outVal := [], nandIter := [7], nandVal := [true] }
    true rfl rfl

/-- The pass-through machine's arena and a state in which the single
ChipOutput node still carries its initialization cache (stamp 0, value
false) while the user input cell has been set to true. -/
def passArena : Arena := passMachine.arena

def staleSt : EvalState :=
  { userVals := [true], outIter := [0], outVal := [false], nandIter := [], nandVal := [] }

/-- C5: the Machine's tick counter is 8 bits wide and `process` increments
it by exactly one modulo 2^8 per call — whatever the evaluation result, the
resulting machine's counter is `(old + 1) % 256`; after 256 calls the
counter is back at 0, its initial (already used) value; and a memoized node
whose stored stamp equals the current tick spuriously reports its stale
cached value as current: with the user input already true, the stale node
answers false at tick 0 (a cache hit on the initialization stamp) but true
at tick 1 (a real evaluation). -/
theorem tick_counter_wraps :
    (∀ (m : Machine) (vals : List Bool) (fuel : Nat),
        (m.process vals fuel).map (fun p => p.2.iteration)
          = (m.process vals fuel).map (fun _ => (m.iteration + 1) % 256)) ∧
    passMachine.iteration = 0 ∧
    (runN [true] 8 256 passMachine).map (fun p => p.2.iteration) = some 0 ∧
    eval passArena 9 (.out 0) 0 staleSt = .ok false staleSt ∧
    eval passArena 9 (.out 0) 1 staleSt = .ok true { staleSt with outIter := [1], outVal := [true] } := by
  refine ⟨?_, rfl, by rfl, rfl, rfl⟩
  intro m vals fuel
  simp only [Machine.process, Option.map_map]
  apply Option.map_congr
  intro p _
  simp [Function.comp, Machine.nextTick]

/-- C6: for every record shape (fields that are single elements or
fixed-size arrays, concatenated depth first in declared field order) the
generated from_flat/to_flat pair is a lossless isomorphism:
`from_flat (to_flat r) = r` for every shape-conforming record, and
`to_flat (from_flat a) = a` for every flat array of exactly the declared
arity. -/
theorem structured_data_round_trip :
    (∀ (T : Type) (sh : List FieldShape) (r : List (FieldVal T)),
        conformsB sh r = true → from_flat sh (to_flat r) = some r) ∧
    (∀ (T : Type) (sh : List FieldShape) (flat : List T),
        flat.length = shapeArity sh → (from_flat sh flat).map to_flat = some flat) :=
  ⟨fun _ sh r h => from_flat_to_flat sh r h, fun _ sh flat h => to_flat_from_flat sh flat h⟩

/-- Witness for C6: the two round trips at the concrete record type with a
scalar field followed by a two-element array field. -/
theorem structured_data_round_trip_witness :
    from_flat [FieldShape.scalar, FieldShape.arr 2]
        (to_flat [FieldVal.scalar true, FieldVal.arr [false, true]])
      = some [FieldVal.scalar true, FieldVal.arr [false, true]] ∧
    (from_flat [FieldShape.scalar, FieldShape.arr 2] [true, false, true]).map to_flat
      = some [true, false, true] :=
  ⟨structured_data_round_trip.1 Bool [FieldShape.scalar, FieldShape.arr 2]
      [FieldVal.scalar true, FieldVal.arr [false, true]] (by decide),
   structured_data_round_trip.2 Bool [FieldShape.scalar, FieldShape.arr 2]
      [true, false, true] (by decide)⟩

/-- C7: for all boolean inputs, the primitive Nand node computes
`not (a and b)`, and the composed NOT, AND, OR, XOR, MUX and DEMUX chips —
evaluated through the actual memoized machine protocol — match their
canonical truth tables; in particular Nand(true,true) = false and
Mux(in1 = false, in2 = true, sel = true) = true are instances of the
quantified equations. -/
theorem gate_truth_tables :
    (∀ v1 v2 : Bool,
        evalVal (eval (nandOnlyArena v1 v2) 2 (.nand 0) 1 (initState (nandOnlyArena v1 v2)))
          = some (!(v1 && v2))) ∧
    (∀ v : Bool, (notMachine.process [v] 32).map Prod.fst = some [!v]) ∧
    (∀ v1 v2 : Bool, (andMachine.process [v1, v2] 32).map Prod.fst = some [v1 && v2]) ∧
    (∀ v1 v2 : Bool, (orMachine.process [v1, v2] 32).map Prod.fst = some [v1 || v2]) ∧
    (∀ v1 v2 : Bool, (xorMachine.process [v1, v2] 64).map Prod.fst = some [Bool.xor v1 v2]) ∧
    (∀ v1 v2 s : Bool,
        (muxMachine.process [v1, v2, s] 64).map Prod.fst = some [if s then v2 else v1]) ∧
    (∀ v s : Bool,
        (demuxMachine.process [v, s] 64).map Prod.fst = some [v && !s, v && s]) := by
  refine ⟨?_, ?_, ?_, ?_, ?_, ?_, ?_⟩ <;> decide

/-- C8: Adder16 implements 16-bit modular addition with the final carry
discarded — the value of the output bits is the sum of the input values
modulo 2^16 for all length-16 inputs — and in particular
Adder16(0x0001, 0x7FFF) = 0x8000 and Adder16(0xFFFF, 0x0001) = 0x0000. -/
theorem adder16_modular_addition :
    (∀ (n1 n2 : List Bool), n1.length = 16 → n2.length = 16 →
        bitsVal (adder16Fn n1 n2) = (bitsVal n1 + bitsVal n2) % 65536) ∧
    adder16Fn (natBits16 0x0001) (natBits16 0x7FFF) = natBits16 0x8000 ∧
    adder16Fn (natBits16 0xFFFF) (natBits16 0x0001) = natBits16 0x0000 :=
  ⟨adder16_val, by decide, by decide⟩

/-- Witness for C8: the modular-addition equation instantiated at
0x0001 + 0x7FFF. -/
theorem adder16_modular_addition_witness :
    bitsVal (adder16Fn (natBits16 0x0001) (natBits16 0x7FFF))
      = (bitsVal (natBits16 0x0001) + bitsVal (natBits16 0x7FFF)) % 65536 :=
  adder16_modular_addition.1 (natBits16 0x0001) (natBits16 0x7FFF) (by decide) (by decide)

/-- C9: for every 16-bit input, Incrementer16 produces exactly the output
of Adder16 applied to the input and the constant one (the source feeds the
constant-one vector as num1 and the input as num2; the ripple is symmetric
in its two operands gate by gate). -/
theorem incrementer16_is_adder_with_one :
    ∀ num : List Bool, num.length = 16 → incrementer16Fn num = adder16Fn num (natBits16 1) := by
  intro num h
  have hone : natBits16 1 = one16 := by decide
  rw [hone]
  exact adder16Fn_comm one16 num (by simp [one16, h])

/-- Witness for C9: the equation at the concrete input 41. -/
theorem incrementer16_is_adder_with_one_witness :
    incrementer16Fn (natBits16 41) = adder16Fn (natBits16 41) (natBits16 1) :=
  incrementer16_is_adder_with_one (natBits16 41) (by decide)

/-- C10: every freshly constructed Nand and ChipOutput node starts with
tick stamp 0 and cached value false; evaluating such a node at tick 0
returns false immediately (already at one unit of fuel, so its inputs are
never read); Machine::new starts the tick counter at 0 and process
increments before evaluating, so the first evaluation tick of any machine
is 1 — at which the fresh stamp-0 cache cannot hit (a bound NAND at tick 1
and one unit of fuel must recurse instead of answering from the cache) —
and a machine driven across the 8-bit wrap (257 calls) keeps returning the
live input value, never the initialization cache. -/
theorem fresh_cache_tick_protocol :
    (∀ (a : Arena) (n : Nat), n < a.nands.length →
        lget (initState a).nandIter n = some 0 ∧ lget (initState a).nandVal n = some false) ∧
    (∀ (a : Arena) (o : Nat), o < a.chipOutputs.length →
        lget (initState a).outIter o = some 0 ∧ lget (initState a).outVal o = some false) ∧
    (∀ (a : Arena) (n : Nat), n < a.nands.length →
        eval a 1 (.nand n) 0 (initState a) = .ok false (initState a)) ∧
    (∀ (a : Arena) (o : Nat), o < a.chipOutputs.length →
        eval a 1 (.out o) 0 (initState a) = .ok false (initState a)) ∧
    (∀ (nin : Nat) (build : Arena → List Input → Arena × List Nat),
        (Machine.new nin build).iteration = 0 ∧ (Machine.new nin build).nextTick = 1) ∧
    (∀ (a : Arena) (n : Nat) (p : Input × Input), lget a.nands n = some (some p) →
        eval a 1 (.nand n) 1 (initState a) = .noFuel) ∧
    (runN [true] 8 257 passMachine).map Prod.fst = some (List.replicate 257 [true]) := by
  have hNI : ∀ (a : Arena) (n : Nat), n < a.nands.length →
      lget (initState a).nandIter n = some 0 ∧ lget (initState a).nandVal n = some false := by
    intro a n h
    exact ⟨lget_replicate 0 _ n h, lget_replicate false _ n h⟩
  have hOI : ∀ (a : Arena) (o : Nat), o < a.chipOutputs.length →
      lget (initState a).outIter o = some 0 ∧ lget (initState a).outVal o = some false := by
    intro a o h
    exact ⟨lget_replicate 0 _ o h, lget_replicate false _ o h⟩
  refine ⟨hNI, hOI, ?_, ?_, ?_, ?_, by rfl⟩
  · intro a n h
    exact eval_nand_hit a 0 n 0 (initState a) false (hNI a n h).1 (hNI a n h).2
  · intro a o h
    exact eval_out_hit a 0 o 0 (initState a) false (hOI a o h).1 (hOI a o h).2
  · intro nin build
    exact ⟨rfl, rfl⟩
  · intro a n p h
    have hn : n < a.nands.length := lget_some_lt h
    have hI : lget (initState a).nandIter n = some 0 := lget_replicate 0 _ n hn
    have hV : lget (initState a).nandVal n = some false := lget_replicate false _ n hn
    show eval a (0 + 1) (.nand n) 1 (initState a) = .noFuel
    simp [eval, hI, hV, h, withOk]

/-- Witness for C10: the initialization facts and the tick-0 immediate
cache answer at the concrete one-NAND feedback arena. -/
theorem fresh_cache_tick_protocol_witness :
    (lget (initState cycArena).nandIter 0 = some 0 ∧
      lget (initState cycArena).nandVal 0 = some false) ∧
    eval cycArena 1 (.nand 0) 0 (initState cycArena) = .ok false (initState cycArena) ∧
    eval cycArena 1 (.nand 0) 1 (initState cycArena) = .noFuel :=
  ⟨fresh_cache_tick_protocol.1 cycArena 0 (by decide),
   fresh_cache_tick_protocol.2.2.1 cycArena 0 (by decide),
   fresh_cache_tick_protocol.2.2.2.2.2.1 cycArena 0 (.userInput 0, .chipOutput 0) rfl⟩

end Nand2
